import Mathlib

/-!
Shallow embedding of the go-sumtype exhaustiveness checker
(`pkg/sumtype/check.go` and `pkg/sumtype/analyzer.go`).

Conventions of the embedding:
* Go `types.Type` values are modelled by `GoType`: an optional name (named
  types carry `some n`, unnamed underlying representations carry `none`)
  together with a numeric identity `under` of the underlying representation.
  `types.Identical` is structural equality of `GoType`, `Type.Underlying()`
  forgets the name.
* Go AST nodes are modelled by the inductives `GoExpr`, `GoStmt`,
  `CaseClause`, `TypeSwitchStmt`; only the node shapes inspected by the
  source are distinguished, everything else maps to a catch-all
  constructor (on which the source's type assertions fail, i.e. panic).
* A Go function that can panic is embedded with result `Except String _`;
  `.error msg` models the panic, `.ok` the normal return.
* `pkg.Scope()` is modelled by a `Scope`, an association list of `Object`s
  looked up by name in order.
-/

/-- Boolean lexicographic order on character lists, mirroring Go's
byte-wise string comparison used by `sort.Strings` (UTF-8 byte order
agrees with code-point order). -/
def leChars : List Char → List Char → Bool
  | [], _ => true
  | _ :: _, [] => false
  | a :: as, b :: bs => if a < b then true else if b < a then false else leChars as bs

/-- Lexicographic comparison on strings via `leChars`. -/
def leStr (a b : String) : Bool := leChars a.toList b.toList

/-- Ordered insertion for `sortStrings`. -/
def insertStr (a : String) : List String → List String
  | [] => [a]
  | b :: bs => if leStr a b then a :: b :: bs else b :: insertStr a bs

/-- Sorting a list of strings ascending lexicographically; models the
effect of Go's `sort.Strings` (the sorted list is determined by the
multiset, so the choice of algorithm is irrelevant). -/
def sortStrings : List String → List String
  | [] => []
  | a :: as => insertStr a (sortStrings as)

/-- Model of `go/types` type handles: named types carry their name,
`under` is the identity of the underlying type representation. -/
structure GoType where
  name : Option String
  under : Nat
deriving DecidableEq, Repr

/-- Model of `types.Type.Underlying()`: forgets the name, keeping the
underlying representation. -/
def GoType.Underlying (t : GoType) : GoType := ⟨none, t.under⟩

/-- Model of `types.Identical`. -/
def Identical (a b : GoType) : Bool := a = b

/-- Model of `types.Object`: a named program entity with its type. -/
structure Object where
  name : String
  ty : GoType
deriving DecidableEq, Repr

/-- Model of `*types.Scope`: an association list of objects. -/
abbrev Scope := List Object

/-- Model of `Scope.Lookup`: first object with the given name. -/
def lookupScope : Scope → String → Option Object
  | [], _ => none
  | o :: os, n => if o.name = n then some o else lookupScope os n

/-- Go AST expressions, restricted to the shapes `check.go` inspects.
`call` models `*ast.CallExpr`; its argument expressions are never
inspected by the source (`check.go` only reads `callExpr.Fun`), so they
are not carried. -/
inductive GoExpr where
  | ident (name : String)
  | selector (x : GoExpr) (sel : String)
  | star (x : GoExpr)
  | typeAssert (x : GoExpr)
  | call (fn : GoExpr)
  | otherExpr
deriving DecidableEq, Repr

/-- Go AST statements, restricted to the shapes `check.go` inspects. -/
inductive GoStmt where
  | exprStmt (x : GoExpr)
  | assignStmt (rhs : List GoExpr)
  | otherStmt
deriving DecidableEq, Repr

/-- Model of `*ast.CaseClause`: `list = none` is a `default:` clause
(`clause.List == nil` in Go), otherwise the case's type expressions. -/
structure CaseClause where
  list : Option (List GoExpr)
  body : List GoStmt
deriving DecidableEq, Repr

/-- Model of `*ast.TypeSwitchStmt`. `pos` stands for the source position
`fset.Position(swtch.Pos())`. The Go parser guarantees `Body.List`
contains only `*ast.CaseClause` nodes, so `body` is a list of clauses. -/
structure TypeSwitchStmt where
  pos : Nat
  assign : GoStmt
  body : List CaseClause
deriving DecidableEq, Repr

/-- Model of `sumTypeDecl` (analyzer.go): a marker-comment declaration.
The `Package` pointer is passed separately where needed, since the whole
run analyzes one package. -/
structure sumTypeDecl where
  TypeName : String
  Path : String
  Line : Nat
deriving DecidableEq, Repr

/-- Modelled from the spec: the type `sumTypeDef` is declared outside the
code under `src/` (only `check.go`'s uses are visible). Per the spec's
data model (§3), a definition carries its declaration, the interface's
semantic type handle (`Ty`, compared against `Underlying()` of switched
types in `findDef`, hence stored as an underlying representation), and
the ordered set of variant objects discovered in the defining scope. -/
structure sumTypeDef where
  Decl : sumTypeDecl
  Ty : GoType
  Variants : List Object
deriving DecidableEq, Repr

/-- Modelled from the spec: the method `sumTypeDef.missing` is not under
`src/`. Per the spec (§4.4 step 4) it computes `variants − caseTypes`,
the set difference over type identity: the variants whose type is
identical to no given case type, in variant order. -/
def sumTypeDef.missing (d : sumTypeDef) (tys : List GoType) : List Object :=
  d.Variants.filter (fun v => !(tys.any (fun t => Identical v.ty t)))

/-- Model of `inexhaustiveError` (check.go): one inexhaustive type switch. -/
structure inexhaustiveError where
  Pos : Nat
  Def : sumTypeDef
  Missing : List Object
deriving DecidableEq, Repr

/-- Model of `inexhaustiveError.Names` (check.go): the sorted list of
names of the missing variants. -/
def inexhaustiveError.Names (e : inexhaustiveError) : List String :=
  sortStrings (e.Missing.map Object.name)

/-- Model of `findTypeAssertExpr` (check.go): extracts the expression
being type-asserted from the switch's `Assign` statement; the two Go
type assertions and the `Rhs[0]` index can panic (`Except.error`). -/
def findTypeAssertExpr (swtch : TypeSwitchStmt) : Except String GoExpr :=
  match swtch.assign with
  | .assignStmt rhs =>
    match rhs with
    | [] => .error "index out of range"
    | e :: _ =>
      match e with
      | .typeAssert x => .ok x
      | _ => .error "interface conversion: not a TypeAssertExpr"
  | .exprStmt e =>
    match e with
    | .typeAssert x => .ok x
    | _ => .error "interface conversion: not a TypeAssertExpr"
  | .otherStmt => .error "interface conversion: not an ExprStmt"

/-- Recursion behind `switchVariants` over the clause list: collects all
case expressions in order and records whether a default clause occurs. -/
def switchVariantsList : List CaseClause → List GoExpr × Bool
  | [] => ([], false)
  | c :: cs =>
    match c.list with
    | none => ((switchVariantsList cs).1, true)
    | some es => (es ++ (switchVariantsList cs).1, (switchVariantsList cs).2)

/-- Model of `switchVariants` (check.go). -/
def switchVariants (swtch : TypeSwitchStmt) : List GoExpr × Bool :=
  switchVariantsList swtch.body

/-- First clause with `List == nil`, i.e. the default clause; mirrors the
search loop at the top of `defaultClauseAlwaysPanics`. -/
def findDefaultClause : List CaseClause → Option CaseClause
  | [] => none
  | c :: cs => if c.list = none then some c else findDefaultClause cs

/-- Model of `defaultClauseAlwaysPanics` (check.go): true iff the default
clause's body is exactly one expression statement calling the identifier
`panic`; panics (`Except.error`) when the switch has no default clause. -/
def defaultClauseAlwaysPanics (swtch : TypeSwitchStmt) : Except String Bool :=
  match findDefaultClause swtch.body with
  | none => .error "switch statement has no default clause"
  | some clause =>
    match clause.body with
    | [st] =>
      match st with
      | .exprStmt x =>
        match x with
        | .call f =>
          match f with
          | .ident n => .ok (n = "panic")
          | _ => .ok false
        | _ => .ok false
      | _ => .ok false
    | _ => .ok false

/-- Model of `findDef` (check.go): first definition whose `Ty` is
identical to the needle's underlying type. -/
def findDef : List sumTypeDef → GoType → Option sumTypeDef
  | [], _ => none
  | d :: ds, needle => if Identical needle.Underlying d.Ty then some d else findDef ds needle

/-- Resolution of one case expression in the loop of
`missingVariantsInSwitch`: the expression must be a `*ast.StarExpr` over
an `*ast.Ident` (two panicking assertions), the identifier is looked up
in the package scope, and `obj.Type()` on a nil object panics. -/
def lookupCaseType (pkg : Scope) (e : GoExpr) : Except String GoType :=
  match e with
  | .star x =>
    match x with
    | .ident n =>
      match lookupScope pkg n with
      | some obj => .ok obj.ty
      | none => .error "runtime error: invalid memory address or nil pointer dereference"
    | _ => .error "interface conversion: not an Ident"
  | _ => .error "not a star expression"

/-- Resolution of all case expressions, in order, propagating the first
panic, as the loop of `missingVariantsInSwitch` does. -/
def resolveCaseTypes (pkg : Scope) : List GoExpr → Except String (List GoType)
  | [] => .ok []
  | e :: es =>
    match lookupCaseType pkg e with
    | .error m => .error m
    | .ok t =>
      match resolveCaseTypes pkg es with
      | .error m => .error m
      | .ok ts => .ok (t :: ts)

/-- Model of `missingVariantsInSwitch` (check.go). The asserted
expression must be a `*ast.SelectorExpr` whose selector resolves in the
package scope (panic otherwise); an unmatched switched type yields
`(none, [])`; a default clause that is not recognized as always panicking
suppresses the check; otherwise the case types are resolved and the
missing variants computed. -/
def missingVariantsInSwitch (pkg : Scope) (defs : List sumTypeDef) (swtch : TypeSwitchStmt) :
    Except String (Option sumTypeDef × List Object) :=
  match findTypeAssertExpr swtch with
  | .error m => .error m
  | .ok asserted =>
    match asserted with
    | .selector _ sel =>
      match lookupScope pkg sel with
      | none => .error "expected non nil obj"
      | some obj =>
        match findDef defs obj.ty with
        | none => .ok (none, [])
        | some d =>
          if (switchVariants swtch).2 then
            match defaultClauseAlwaysPanics swtch with
            | .error m => .error m
            | .ok true =>
              match resolveCaseTypes pkg (switchVariants swtch).1 with
              | .error m => .error m
              | .ok tys => .ok (some d, d.missing tys)
            | .ok false => .ok (some d, [])
          else
            match resolveCaseTypes pkg (switchVariants swtch).1 with
            | .error m => .error m
            | .ok tys => .ok (some d, d.missing tys)
    | _ => .error "expected *ast.SelectorExpr"

/-- Model of `checkSwitch` (check.go): Go's returned `error` value is
`Option inexhaustiveError` (`none` = nil), wrapped in `Except` whose
`.error` models a panic escaping the call. -/
def checkSwitch (pkg : Scope) (defs : List sumTypeDef) (swtch : TypeSwitchStmt) :
    Except String (Option inexhaustiveError) :=
  match missingVariantsInSwitch pkg defs swtch with
  | .error m => .error m
  | .ok (dOpt, missing) =>
    if missing.length > 0 then
      match dOpt with
      | some d => .ok (some { Pos := swtch.pos, Def := d, Missing := missing })
      | none => .error "runtime error: invalid memory address or nil pointer dereference"
    else .ok none

/-- Character class of Go's regexp `\s` (Perl whitespace):
tab, newline, form feed, carriage return, space. -/
def isGoSpace (c : Char) : Bool :=
  c = ' ' || c = '\t' || c = '\n' || c = '\x0c' || c = '\r'

/-- Splits a literal off the front of a line: `some r` iff the line is
the literal followed by `r`. Models `bytes.HasPrefix` plus taking the
remainder. -/
def dropLit : List Char → List Char → Option (List Char)
  | [], r => some r
  | _, [] => none
  | c :: cs, d :: ds => if c = d then dropLit cs ds else none

/-- The literal keyword of the marker comment. -/
def declLit : List Char := "//go-sumtype:decl".toList

/-- Model of `isSumTypeDecl` (analyzer.go): the line starts with
`//go-sumtype:decl` followed by a space, or followed by a tab. -/
def isSumTypeDecl (line : List Char) : Bool :=
  (dropLit ("//go-sumtype:decl ".toList) line).isSome ||
    (dropLit ("//go-sumtype:decl\t".toList) line).isSome

/-- Model of `parseSumTypeDecl` (analyzer.go): the submatch of
`^//go-sumtype:decl\s+(\S+)\s*$` on the line, or `[]` (the empty string)
when the regex does not match. The regex is anchored at both ends, so a
match decomposes the line as the literal, a nonempty whitespace run, a
nonempty non-whitespace run (the capture), and trailing whitespace; such
a decomposition is unique, which the executable decomposition below
computes. -/
def parseSumTypeDecl (line : List Char) : List Char :=
  match dropLit declLit line with
  | none => []
  | some rest =>
    match rest.takeWhile isGoSpace with
    | [] => []
    | _ :: _ =>
      match (rest.dropWhile isGoSpace).takeWhile (fun c => !isGoSpace c) with
      | [] => []
      | nm0 :: nm =>
        if (((rest.dropWhile isGoSpace).dropWhile (fun c => !isGoSpace c)).all isGoSpace) then
          nm0 :: nm
        else []

/-- Per-line body of the scanning loop in `sumTypeDeclSearch`
(analyzer.go): the `isSumTypeDecl` gate followed by `parseSumTypeDecl`,
skipping the line when the parsed name is empty. -/
def scanDeclLine (line : List Char) : Option (List Char) :=
  if isSumTypeDecl line then
    match parseSumTypeDecl line with
    | [] => none
    | nm0 :: nm => some (nm0 :: nm)
  else none

/-- Input to `sumTypeDeclSearch`: the file's physical lines, a point at
which `bufio.Scanner` fails (yielding only the lines before it and then
a non-nil `scanner.Err()`, e.g. a line exceeding the scanner's
capacity), and whether `os.Open` fails. -/
structure FileInput where
  path : String
  lines : List (List Char)
  failAt : Option Nat
  openErr : Bool
deriving DecidableEq, Repr

/-- Lines actually yielded by the scanner: all of them, or those before
the failure point. -/
def scanYield (f : FileInput) : List (List Char) :=
  match f.failAt with
  | none => f.lines
  | some k => f.lines.take k

/-- Scanning loop of `sumTypeDeclSearch` (analyzer.go): `lineNum` starts
at 0 and is incremented before each line is examined, so declarations
carry 1-based line numbers. -/
def searchLoop (path : String) (lineNum : Nat) : List (List Char) → List sumTypeDecl
  | [] => []
  | l :: ls =>
    match scanDeclLine l with
    | some nm => { TypeName := String.mk nm, Path := path, Line := lineNum + 1 } ::
        searchLoop path (lineNum + 1) ls
    | none => searchLoop path (lineNum + 1) ls

/-- Model of `sumTypeDeclSearch` (analyzer.go): an `os.Open` failure is
returned as an error; a scanner failure is only logged (the `Bool`
records whether the log statement ran) and the declarations collected
before the failure are returned with a nil error. -/
def sumTypeDeclSearch (f : FileInput) : Except String (List sumTypeDecl × Bool) :=
  if f.openErr then .error "open error"
  else .ok (searchLoop f.path 0 (scanYield f), f.failAt.isSome)

/-- Model of `findSumTypeDecls` (analyzer.go): scans every file, skipping
the synthetic cgo file named `C`, and propagates a `sumTypeDeclSearch`
error immediately. -/
def findSumTypeDecls : List FileInput → Except String (List sumTypeDecl)
  | [] => .ok []
  | f :: fs =>
    if f.path = "C" then findSumTypeDecls fs
    else
      match sumTypeDeclSearch f with
      | .error e => .error e
      | .ok (ds, _) =>
        match findSumTypeDecls fs with
        | .error e => .error e
        | .ok rest => .ok (ds ++ rest)

/-- Errors a `run` can return: a declaration-scan failure, a resolution
failure for a declaration, or an inexhaustiveness diagnostic (Go returns
all three through the single `error` result). -/
inductive RunError where
  | declSearch (msg : String)
  | notFound (d : sumTypeDecl)
  | inexhaustive (e : inexhaustiveError)
deriving DecidableEq, Repr

/-- Modelled from the spec: resolution of one declaration inside
`findSumTypeDefs`, which is not under `src/`. Per the spec (§4.2) the
declared type name is looked up in the defining scope; the environment
`env` maps each resolvable name to the definition that variant discovery
produces for it; an absent name is a resolution failure. -/
def resolveDecl (env : List (String × sumTypeDef)) (d : sumTypeDecl) : Option sumTypeDef :=
  match env.find? (fun p => p.1 = d.TypeName) with
  | some p => some p.2
  | none => none

/-- Modelled from the spec: `findSumTypeDefs` is not under `src/`. Per
the spec (§4.2, §7) each declaration is resolved independently; a
resolution failure is recorded and processing continues with the
remaining declarations; resolved definitions and failures are returned
in declaration order. -/
def findSumTypeDefs (env : List (String × sumTypeDef)) :
    List sumTypeDecl → List sumTypeDef × List RunError
  | [] => ([], [])
  | d :: ds =>
    match resolveDecl env d with
    | some df => (df :: (findSumTypeDefs env ds).1, (findSumTypeDefs env ds).2)
    | none => ((findSumTypeDefs env ds).1, .notFound d :: (findSumTypeDefs env ds).2)

/-- Outcome of `run`: a nil error, a returned error, or a panic escaping
`run` (a Go panic is not an `error` return and aborts the whole run). -/
inductive RunResult where
  | ok
  | err (e : RunError)
  | panicked (msg : String)
deriving DecidableEq, Repr

/-- The switch loop at the end of `run` (analyzer.go): each switch is
checked in turn; the first non-nil error is returned immediately and a
panic escaping `checkSwitch` aborts everything. -/
def runSwitches (pkg : Scope) (defs : List sumTypeDef) : List TypeSwitchStmt → RunResult
  | [] => .ok
  | s :: ss =>
    match checkSwitch pkg defs s with
    | .error m => .panicked m
    | .ok (some e) => .err (.inexhaustive e)
    | .ok none => runSwitches pkg defs ss

/-- Model of `run` (analyzer.go): collect declarations (propagating a
scan error), resolve definitions; with no definitions return the first
resolution error if any, else nil; otherwise check every switch. -/
def run (env : List (String × sumTypeDef)) (pkg : Scope) (files : List FileInput)
    (switches : List TypeSwitchStmt) : RunResult :=
  match findSumTypeDecls files with
  | .error m => .err (.declSearch m)
  | .ok decls =>
    if (findSumTypeDefs env decls).1.isEmpty then
      match (findSumTypeDefs env decls).2 with
      | [] => .ok
      | e :: _ => .err e
    else runSwitches pkg (findSumTypeDefs env decls).1 switches

deriving instance DecidableEq for Except

/-- Identifier shape used by the spec's wording for C5: a bare Go
identifier is a letter or underscore followed by letters, digits or
underscores. Stated from the spec's words, for comparison with what the
scanner actually accepts. -/
def isBareIdent : List Char → Bool
  | [] => false
  | c :: cs => (c.isAlpha || c = '_') && cs.all (fun d => d.isAlphanum || d = '_')

/-- Concrete example data: the `Shape` sum type with variants `Circle`
and `Square`, mirroring the spec's Scenario A-E. -/
def circleTy : GoType := ⟨some "Circle", 10⟩

/-- Concrete example: the `Square` variant type. -/
def squareTy : GoType := ⟨some "Square", 11⟩

/-- Concrete example: the named interface type `Shape`. -/
def shapeTy : GoType := ⟨some "Shape", 1⟩

/-- Concrete example: a defined alias of `Shape` (distinct name, same
underlying representation). -/
def shapeAliasTy : GoType := ⟨some "ShapeAlias", 1⟩

/-- Concrete example: the object for variant `Circle`. -/
def circleObj : Object := ⟨"Circle", circleTy⟩

/-- Concrete example: the object for variant `Square`. -/
def squareObj : Object := ⟨"Square", squareTy⟩

/-- Concrete example: the package scope, containing a variable `s` of
type `Shape` and the two variant types. -/
def shapeScope : Scope := [⟨"s", shapeTy⟩, circleObj, squareObj]

/-- Concrete example: the marker declaration for `Shape`. -/
def shapeDecl : sumTypeDecl := ⟨"Shape", "shape.go", 1⟩

/-- Concrete example: the resolved definition of `Shape`. -/
def shapeDef : sumTypeDef := ⟨shapeDecl, ⟨none, 1⟩, [circleObj, squareObj]⟩

/-- Concrete example: a resolution environment in which `Shape` resolves. -/
def shapeEnv : List (String × sumTypeDef) := [("Shape", shapeDef)]

/-- Concrete example: the `Assign` of `switch y := s.(type)`-style
statements whose asserted expression is the selector `x.s`. -/
def assertS : GoStmt := .exprStmt (.typeAssert (.selector (.ident "x") "s"))

/-- Concrete example: `case *Circle:`. -/
def caseCircle : CaseClause := ⟨some [.star (.ident "Circle")], []⟩

/-- Concrete example: `case *Square:`. -/
def caseSquare : CaseClause := ⟨some [.star (.ident "Square")], []⟩

/-- Concrete example: `default: panic(...)`. -/
def defaultPanicClause : CaseClause := ⟨none, [.exprStmt (.call (.ident "panic"))]⟩

/-- Concrete example: a default clause that returns normally. -/
def defaultReturnClause : CaseClause := ⟨none, [.otherStmt]⟩

/-- Concrete example: a switch on `Shape` covering only `*Circle`. -/
def swMissingSquare : TypeSwitchStmt := ⟨5, assertS, [caseCircle]⟩

/-- Concrete example: a switch covering all variants, out of order and
with a duplicated case. -/
def swFullCoverage : TypeSwitchStmt := ⟨6, assertS, [caseSquare, caseCircle, caseCircle]⟩

/-- Concrete example: only `*Circle` plus a panicking default. -/
def swPanicDefault : TypeSwitchStmt := ⟨7, assertS, [caseCircle, defaultPanicClause]⟩

/-- Concrete example: only `*Circle` plus a normally-returning default. -/
def swReturnDefault : TypeSwitchStmt := ⟨8, assertS, [caseCircle, defaultReturnClause]⟩

/-- Concrete example: a switch whose `Assign` has an uninterpretable
shape. -/
def swBadShape : TypeSwitchStmt := ⟨9, .otherStmt, []⟩

/-- Concrete example: a source file declaring `Shape` on line 1. -/
def shapeDeclFile : FileInput := ⟨"shape.go", ["//go-sumtype:decl Shape".toList], none, false⟩

/-- Concrete example: a scope in which the switched variable `s` has a
type matching no sum type definition. -/
def otherScope : Scope := [⟨"s", ⟨some "Other", 99⟩⟩]

example : checkSwitch shapeScope [shapeDef] swMissingSquare =
    .ok (some ⟨5, shapeDef, [squareObj]⟩) := by decide

example : checkSwitch shapeScope [shapeDef] swFullCoverage = .ok none := by decide

example : checkSwitch shapeScope [shapeDef] swPanicDefault =
    .ok (some ⟨7, shapeDef, [squareObj]⟩) := by decide

example : checkSwitch shapeScope [shapeDef] swReturnDefault = .ok none := by decide

example : checkSwitch shapeScope [shapeDef] swBadShape =
    .error "interface conversion: not an ExprStmt" := by decide

example : run shapeEnv shapeScope [shapeDeclFile] [swBadShape, swMissingSquare] =
    .panicked "interface conversion: not an ExprStmt" := by decide

example : run [] shapeScope [shapeDeclFile] [swMissingSquare] =
    .err (.notFound shapeDecl) := by decide

example : scanDeclLine ("//go-sumtype:decl Shape".toList) = some ("Shape".toList) := by decide

example : scanDeclLine ("//go-sumtype:decl\t Shape  ".toList) = some ("Shape".toList) := by decide

example : scanDeclLine ("//go-sumtype:decl @@@".toList) = some ("@@@".toList) := by decide

example : scanDeclLine ("//go-sumtype:decl Shape extra".toList) = none := by decide

example : scanDeclLine ("//go-sumtype:decl   ".toList) = none := by decide

theorem leChars_total : ∀ a b, leChars a b = true ∨ leChars b a = true := by
  intro a
  induction a with
  | nil => intro b; left; simp [leChars]
  | cons x xs ih =>
    intro b
    cases b with
    | nil => right; simp [leChars]
    | cons y ys =>
      simp only [leChars]
      rcases lt_trichotomy x y with h | h | h
      · left; simp [h]
      · subst h
        simp only [lt_irrefl, if_false]
        exact ih ys
      · right; simp [h, not_lt.mpr (le_of_lt h)]

theorem leChars_trans : ∀ a b c, leChars a b = true → leChars b c = true → leChars a c = true := by
  intro a
  induction a with
  | nil => intro b c _ _; simp [leChars]
  | cons x xs ih =>
    intro b c hab hbc
    cases b with
    | nil => simp [leChars] at hab
    | cons y ys =>
      cases c with
      | nil => simp [leChars] at hbc
      | cons z zs =>
        simp only [leChars] at hab hbc ⊢
        rcases lt_trichotomy x y with h1 | h1 | h1
        · rcases lt_trichotomy y z with h2 | h2 | h2
          · simp [lt_trans h1 h2]
          · subst h2; simp [h1]
          · simp [h2, not_lt.mpr (le_of_lt h2)] at hbc
        · subst h1
          rcases lt_trichotomy x z with h2 | h2 | h2
          · simp [h2]
          · subst h2
            simp only [lt_irrefl, if_false] at hab hbc ⊢
            exact ih _ _ hab hbc
          · simp [h2, not_lt.mpr (le_of_lt h2)] at hbc
        · simp [h1, not_lt.mpr (le_of_lt h1)] at hab

theorem leStr_total : ∀ a b, leStr a b = true ∨ leStr b a = true := by
  intro a b; exact leChars_total a.toList b.toList

theorem leStr_trans : ∀ a b c, leStr a b = true → leStr b c = true → leStr a c = true := by
  intro a b c; exact leChars_trans a.toList b.toList c.toList

theorem mem_insertStr (x a : String) (l : List String) :
    x ∈ insertStr a l ↔ x = a ∨ x ∈ l := by
  induction l with
  | nil => simp [insertStr]
  | cons b bs ih =>
    simp only [insertStr]
    by_cases h : leStr a b = true
    · rw [if_pos h]
      simp [List.mem_cons]
    · rw [if_neg h]
      simp only [List.mem_cons, ih]
      tauto

theorem insertStr_perm (a : String) (l : List String) :
    List.Perm (insertStr a l) (a :: l) := by
  induction l with
  | nil => simp [insertStr]
  | cons b bs ih =>
    simp only [insertStr]
    by_cases h : leStr a b = true
    · simp [h]
    · simp only [h, if_false]
      exact List.Perm.trans (List.Perm.cons b ih) (List.Perm.swap a b bs)

theorem sortStrings_perm (l : List String) : List.Perm (sortStrings l) l := by
  induction l with
  | nil => simp [sortStrings]
  | cons a as ih =>
    exact List.Perm.trans (insertStr_perm a (sortStrings as)) (List.Perm.cons a ih)

theorem insertStr_pairwise (a : String) (l : List String)
    (h : l.Pairwise (fun x y => leStr x y = true)) :
    (insertStr a l).Pairwise (fun x y => leStr x y = true) := by
  induction l with
  | nil => simp [insertStr]
  | cons b bs ih =>
    rcases List.pairwise_cons.mp h with ⟨hb, hbs⟩
    simp only [insertStr]
    by_cases hab : leStr a b = true
    · rw [if_pos hab]
      refine List.pairwise_cons.mpr ⟨?_, h⟩
      intro y hy
      rcases List.mem_cons.mp hy with hy | hy
      · subst hy; exact hab
      · exact leStr_trans a b y hab (hb y hy)
    · rw [if_neg hab]
      refine List.pairwise_cons.mpr ⟨?_, ih hbs⟩
      intro y hy
      rcases (mem_insertStr y a bs).mp hy with hy | hy
      · rcases leStr_total a b with h1 | h1
        · exact absurd h1 hab
        · rw [hy]; exact h1
      · exact hb y hy

theorem sortStrings_pairwise (l : List String) :
    (sortStrings l).Pairwise (fun x y => leStr x y = true) := by
  induction l with
  | nil => simp [sortStrings]
  | cons a as ih => exact insertStr_pairwise a (sortStrings as) ih

theorem takeWhile_append_of_all {α} (p : α → Bool) (w r : List α)
    (h : ∀ x ∈ w, p x = true) : (w ++ r).takeWhile p = w ++ r.takeWhile p := by
  induction w with
  | nil => simp
  | cons a as ih =>
    have ha : p a = true := h a (List.mem_cons_self a as)
    simp only [List.cons_append, List.takeWhile_cons_of_pos ha]
    rw [ih (fun x hx => h x (List.mem_cons_of_mem a hx))]

theorem dropWhile_append_of_all {α} (p : α → Bool) (w r : List α)
    (h : ∀ x ∈ w, p x = true) : (w ++ r).dropWhile p = r.dropWhile p := by
  induction w with
  | nil => simp
  | cons a as ih =>
    have ha : p a = true := h a (List.mem_cons_self a as)
    simp only [List.cons_append, List.dropWhile_cons_of_pos ha]
    exact ih (fun x hx => h x (List.mem_cons_of_mem a hx))

theorem takeWhile_eq_nil_of_all_false {α} (p : α → Bool) (t : List α)
    (h : ∀ x ∈ t, p x = false) : t.takeWhile p = [] := by
  cases t with
  | nil => rfl
  | cons a as =>
    have ha : ¬ p a = true := by
      rw [h a (List.mem_cons_self a as)]; simp
    exact List.takeWhile_cons_of_neg ha

theorem dropWhile_eq_self_of_all_false {α} (p : α → Bool) (t : List α)
    (h : ∀ x ∈ t, p x = false) : t.dropWhile p = t := by
  cases t with
  | nil => rfl
  | cons a as =>
    have ha : ¬ p a = true := by
      rw [h a (List.mem_cons_self a as)]; simp
    exact List.dropWhile_cons_of_neg ha

theorem dropLit_eq_some (lit : List Char) : ∀ (line r : List Char),
    dropLit lit line = some r ↔ line = lit ++ r := by
  induction lit with
  | nil =>
    intro line r
    simp [dropLit]
  | cons c cs ih =>
    intro line r
    cases line with
    | nil => simp [dropLit]
    | cons d ds =>
      simp only [dropLit, List.cons_append]
      by_cases h : c = d
      · subst h
        rw [if_pos rfl, ih ds r]
        constructor
        · intro h2; rw [h2]
        · intro h2; exact (List.cons.injEq _ _ _ _).mp h2 |>.2
      · rw [if_neg h]
        constructor
        · intro h2; cases h2
        · intro h2
          have := (List.cons.injEq _ _ _ _).mp h2
          exact absurd this.1.symm h

theorem searchLoop_line_gt (path : String) : ∀ (ls : List (List Char)) (n : Nat)
    (d : sumTypeDecl), d ∈ searchLoop path n ls → n < d.Line := by
  intro ls
  induction ls with
  | nil => intro n d h; simp [searchLoop] at h
  | cons l ls ih =>
    intro n d h
    cases hs : scanDeclLine l with
    | some nm =>
      simp only [searchLoop, hs] at h
      rcases List.mem_cons.mp h with h | h
      · rw [h]; exact Nat.lt_succ_self n
      · have := ih (n + 1) d h; omega
    | none =>
      simp only [searchLoop, hs] at h
      have := ih (n + 1) d h; omega

theorem searchLoop_take (path : String) : ∀ (ls : List (List Char)) (n k : Nat),
    searchLoop path n (ls.take k) =
      (searchLoop path n ls).filter (fun d => decide (d.Line ≤ n + k)) := by
  intro ls
  induction ls with
  | nil => intro n k; simp [searchLoop]
  | cons l ls ih =>
    intro n k
    cases k with
    | zero =>
      simp only [List.take_zero, searchLoop]
      symm
      rw [List.filter_eq_nil_iff]
      intro d hd
      have := searchLoop_line_gt path (l :: ls) n d hd
      simp only [decide_eq_true_eq]
      omega
    | succ k =>
      simp only [List.take_succ_cons]
      cases hs : scanDeclLine l with
      | some nm =>
        simp only [searchLoop, hs, List.filter_cons]
        have hline : (decide (n + 1 ≤ n + (k + 1))) = true := by
          simp only [decide_eq_true_eq]; omega
        simp only [hline, if_true]
        rw [ih (n + 1) k]
        have harith : (n + 1) + k = n + (k + 1) := by omega
        rw [harith]
      | none =>
        simp only [searchLoop, hs]
        rw [ih (n + 1) k]
        have harith : (n + 1) + k = n + (k + 1) := by omega
        rw [harith]

theorem searchLoop_append (path : String) : ∀ (pre post : List (List Char)) (n : Nat),
    searchLoop path n (pre ++ post) =
      searchLoop path n pre ++ searchLoop path (n + pre.length) post := by
  intro pre
  induction pre with
  | nil => intro post n; simp [searchLoop]
  | cons l ls ih =>
    intro post n
    have harith : n + (l :: ls).length = (n + 1) + ls.length := by
      simp only [List.length_cons]; omega
    rw [List.cons_append, harith]
    cases hs : scanDeclLine l with
    | some nm =>
      simp only [searchLoop, hs, List.append_eq]
      rw [ih post (n + 1), List.cons_append]
    | none =>
      simp only [searchLoop, hs, List.append_eq]
      rw [ih post (n + 1)]

theorem hasDefault_findDefaultClause : ∀ (body : List CaseClause),
    (switchVariantsList body).2 = true → ∃ c, findDefaultClause body = some c := by
  intro body
  induction body with
  | nil => intro h; simp [switchVariantsList] at h
  | cons c cs ih =>
    intro h
    by_cases hc : c.list = none
    · exact ⟨c, by simp only [findDefaultClause, if_pos hc]⟩
    · cases hl : c.list with
      | none => exact absurd hl hc
      | some es =>
        simp only [switchVariantsList, hl] at h
        rcases ih h with ⟨c2, hc2⟩
        exact ⟨c2, by simp only [findDefaultClause, if_neg hc, hc2]⟩

theorem missingVariants_suppressed (pkg : Scope) (defs : List sumTypeDef)
    (swtch : TypeSwitchStmt) (x : GoExpr) (sel : String) (obj : Object) (d : sumTypeDef)
    (h1 : findTypeAssertExpr swtch = .ok (.selector x sel))
    (h2 : lookupScope pkg sel = some obj)
    (h3 : findDef defs obj.ty = some d)
    (hd : (switchVariants swtch).2 = true)
    (hp : defaultClauseAlwaysPanics swtch = .ok false) :
    missingVariantsInSwitch pkg defs swtch = .ok (some d, []) := by
  simp only [missingVariantsInSwitch, h1, h2, h3, hd, hp, if_true]

theorem missingVariants_checked (pkg : Scope) (defs : List sumTypeDef)
    (swtch : TypeSwitchStmt) (x : GoExpr) (sel : String) (obj : Object) (d : sumTypeDef)
    (tys : List GoType)
    (h1 : findTypeAssertExpr swtch = .ok (.selector x sel))
    (h2 : lookupScope pkg sel = some obj)
    (h3 : findDef defs obj.ty = some d)
    (hdef : (switchVariants swtch).2 = false ∨ defaultClauseAlwaysPanics swtch = .ok true)
    (h4 : resolveCaseTypes pkg (switchVariants swtch).1 = .ok tys) :
    missingVariantsInSwitch pkg defs swtch = .ok (some d, d.missing tys) := by
  cases hd : (switchVariants swtch).2 with
  | false => simp only [missingVariantsInSwitch, h1, h2, h3, hd, h4, if_false, Bool.false_eq_true]
  | true =>
    rcases hdef with hdf | hp
    · rw [hd] at hdf; cases hdf
    · simp only [missingVariantsInSwitch, h1, h2, h3, hd, hp, h4, if_true]

theorem checkSwitch_of_missing (pkg : Scope) (defs : List sumTypeDef)
    (swtch : TypeSwitchStmt) (d : sumTypeDef) (m : List Object)
    (h : missingVariantsInSwitch pkg defs swtch = .ok (some d, m)) :
    checkSwitch pkg defs swtch =
      if m.length > 0 then .ok (some ⟨swtch.pos, d, m⟩) else .ok none := by
  simp only [checkSwitch, h]

theorem dropWhile_eq_nil_of_all_true {α} (p : α → Bool) (t : List α)
    (h : ∀ x ∈ t, p x = true) : t.dropWhile p = [] := by
  have h2 := dropWhile_append_of_all p t [] h
  simpa using h2

theorem parseSumTypeDecl_ws_only (c : Char) (ws : List Char) (hc : isGoSpace c = true)
    (hws : ∀ x ∈ ws, isGoSpace x = true) :
    parseSumTypeDecl (declLit ++ c :: ws) = [] := by
  have hdrop : dropLit declLit (declLit ++ c :: ws) = some (c :: ws) :=
    (dropLit_eq_some declLit _ _).mpr rfl
  simp only [parseSumTypeDecl, hdrop, List.takeWhile_cons_of_pos hc,
    List.dropWhile_cons_of_pos hc, dropWhile_eq_nil_of_all_true isGoSpace ws hws,
    List.takeWhile_nil]

/-- C9: if the line scanner fails partway through a compilation unit
(after yielding only the first `k` lines), `sumTypeDeclSearch` logs the
failure (the `Bool` flag is `true`) and returns, with no error
(`Except.ok`), exactly the declarations found before the failure point:
the declarations of a full scan restricted to lines `≤ k`. Declarations
after that point in the same unit are not found. -/
theorem sumTypeDeclSearch_scan_failure (path : String) (lines : List (List Char)) (k : Nat) :
    sumTypeDeclSearch ⟨path, lines, some k, false⟩ =
      .ok ((searchLoop path 0 lines).filter (fun d => decide (d.Line ≤ k)), true) := by
  have h := searchLoop_take path lines 0 k
  simp only [Nat.zero_add] at h
  simp only [sumTypeDeclSearch, scanYield, Bool.false_eq_true, if_false, Option.isSome_some, h]

/-- C10: a line that begins with the marker prefix followed by a space
or tab but carries no name token (only whitespace to the end of the
line) produces no declaration and no error: `scanDeclLine` skips it,
and `sumTypeDeclSearch` of a file containing it returns exactly the
declarations of the surrounding lines (at their usual line numbers) and
continues scanning the rest of the file. -/
theorem sumTypeDeclSearch_skips_nameless_marker (path : String)
    (pre post : List (List Char)) (c : Char) (ws : List Char)
    (hc : c = ' ' ∨ c = '\t') (hws : ∀ x ∈ ws, isGoSpace x = true) :
    scanDeclLine (declLit ++ c :: ws) = none ∧
    sumTypeDeclSearch ⟨path, pre ++ (declLit ++ c :: ws) :: post, none, false⟩ =
      .ok (searchLoop path 0 pre ++ searchLoop path (pre.length + 1) post, false) := by
  have hcs : isGoSpace c = true := by
    rcases hc with h | h <;> rw [h] <;> decide
  have hparse : parseSumTypeDecl (declLit ++ c :: ws) = [] :=
    parseSumTypeDecl_ws_only c ws hcs hws
  have hscan : scanDeclLine (declLit ++ c :: ws) = none := by
    simp only [scanDeclLine, hparse]
    by_cases hg : isSumTypeDecl (declLit ++ c :: ws) = true
    · rw [if_pos hg]
    · rw [if_neg hg]
  refine ⟨hscan, ?_⟩
  simp only [sumTypeDeclSearch, scanYield, Bool.false_eq_true, if_false, Option.isSome_none]
  rw [searchLoop_append path pre ((declLit ++ c :: ws) :: post) 0]
  simp only [searchLoop, hscan, Nat.zero_add]

/-- C10 witness: a marker line holding only whitespace after the keyword
is skipped while a later declaration on the following line is still
found. -/
theorem sumTypeDeclSearch_skips_nameless_marker_witness :
    scanDeclLine (declLit ++ ' ' :: ['\t']) = none ∧
    sumTypeDeclSearch ⟨"a.go", [] ++ (declLit ++ ' ' :: ['\t']) :: ["//go-sumtype:decl T".toList], none, false⟩ =
      .ok (searchLoop "a.go" 0 [] ++ searchLoop "a.go" ([] : List (List Char)).length.succ ["//go-sumtype:decl T".toList], false) :=
  sumTypeDeclSearch_skips_nameless_marker "a.go" [] ["//go-sumtype:decl T".toList] ' ' ['\t']
    (Or.inl rfl) (by decide)

/-- C6: `findDef` resolves the switched expression's type by identity
of underlying type representations, not by name: two types with the same
underlying representation (e.g. a defined alias of the sum type) resolve
to the same definition; and a switched type matching no definition
imposes no obligation: `checkSwitch` returns nil (`.ok none`). -/
theorem findDef_underlying_identity :
    (∀ (defs : List sumTypeDef) (t1 t2 : GoType), t1.under = t2.under →
      findDef defs t1 = findDef defs t2) ∧
    (∀ (pkg : Scope) (defs : List sumTypeDef) (swtch : TypeSwitchStmt) (x : GoExpr)
      (sel : String) (obj : Object),
      findTypeAssertExpr swtch = .ok (.selector x sel) →
      lookupScope pkg sel = some obj →
      findDef defs obj.ty = none →
      checkSwitch pkg defs swtch = .ok none) := by
  constructor
  · intro defs t1 t2 h
    have hu : t1.Underlying = t2.Underlying := by
      simp [GoType.Underlying, h]
    induction defs with
    | nil => rfl
    | cons d ds ih =>
      simp only [findDef, hu, ih]
  · intro pkg defs swtch x sel obj h1 h2 h3
    simp only [checkSwitch, missingVariantsInSwitch, h1, h2, h3]
    simp

/-- C6 witness: the alias `ShapeAlias` (same underlying representation
as `Shape`, different name) resolves to the same definition, and a
switch on an unmatched type produces no diagnostic. -/
theorem findDef_underlying_identity_witness :
    findDef [shapeDef] shapeTy = findDef [shapeDef] shapeAliasTy ∧
    checkSwitch otherScope [shapeDef] swMissingSquare = .ok none :=
  ⟨findDef_underlying_identity.1 [shapeDef] shapeTy shapeAliasTy rfl,
    findDef_underlying_identity.2 otherScope [shapeDef] swMissingSquare
      (.ident "x") "s" ⟨"s", ⟨some "Other", 99⟩⟩ (by decide) (by decide) (by decide)⟩

/-- C4 counterexample: the claim says a switch with no default clause at
all yields `false`, but `defaultClauseAlwaysPanics` panics in that case
(as its own doc comment states): on a concrete switch without a default
clause it produces the panic, not `.ok false`. -/
theorem defaultClauseAlwaysPanics_no_default_counterexample :
    defaultClauseAlwaysPanics swMissingSquare = .error "switch statement has no default clause" ∧
    defaultClauseAlwaysPanics swMissingSquare ≠ .ok false := by
  constructor
  · decide
  · decide

/-- C4 amended: `defaultClauseAlwaysPanics` returns true iff a default
clause exists and its body is exactly one expression statement that is a
call whose function is the identifier `panic` (in particular it never
returns true for any other body shape); with a default clause of any
other shape it returns false; with no default clause it panics rather
than returning false (it is only invoked when a default clause exists). -/
theorem defaultClauseAlwaysPanics_characterization (swtch : TypeSwitchStmt) :
    (defaultClauseAlwaysPanics swtch = .ok true ↔
      ∃ c, findDefaultClause swtch.body = some c ∧
        c.body = [GoStmt.exprStmt (GoExpr.call (GoExpr.ident "panic"))]) ∧
    (findDefaultClause swtch.body = none →
      defaultClauseAlwaysPanics swtch = .error "switch statement has no default clause") ∧
    (∀ c, findDefaultClause swtch.body = some c →
      c.body ≠ [GoStmt.exprStmt (GoExpr.call (GoExpr.ident "panic"))] →
      defaultClauseAlwaysPanics swtch = .ok false) := by
  refine ⟨?_, ?_, ?_⟩
  · constructor
    · intro h
      cases hf : findDefaultClause swtch.body with
      | none =>
        simp only [defaultClauseAlwaysPanics, hf] at h
        exact Except.noConfusion h
      | some c =>
        refine ⟨c, rfl, ?_⟩
        simp only [defaultClauseAlwaysPanics, hf] at h
        match hb : c.body with
        | [] => rw [hb] at h; cases h
        | [GoStmt.exprStmt (GoExpr.call (GoExpr.ident n))] =>
          rw [hb] at h
          simp only [Except.ok.injEq, decide_eq_true_eq] at h
          rw [h]
        | [GoStmt.exprStmt (GoExpr.call (GoExpr.selector a b))] => rw [hb] at h; cases h
        | [GoStmt.exprStmt (GoExpr.call (GoExpr.star a))] => rw [hb] at h; cases h
        | [GoStmt.exprStmt (GoExpr.call (GoExpr.typeAssert a))] => rw [hb] at h; cases h
        | [GoStmt.exprStmt (GoExpr.call (GoExpr.call a))] => rw [hb] at h; cases h
        | [GoStmt.exprStmt (GoExpr.call GoExpr.otherExpr)] => rw [hb] at h; cases h
        | [GoStmt.exprStmt (GoExpr.ident a)] => rw [hb] at h; cases h
        | [GoStmt.exprStmt (GoExpr.selector a b)] => rw [hb] at h; cases h
        | [GoStmt.exprStmt (GoExpr.star a)] => rw [hb] at h; cases h
        | [GoStmt.exprStmt (GoExpr.typeAssert a)] => rw [hb] at h; cases h
        | [GoStmt.exprStmt GoExpr.otherExpr] => rw [hb] at h; cases h
        | [GoStmt.assignStmt rhs] => rw [hb] at h; cases h
        | [GoStmt.otherStmt] => rw [hb] at h; cases h
        | s1 :: s2 :: rest => rw [hb] at h; cases h
    · rintro ⟨c, hf, hb⟩
      simp only [defaultClauseAlwaysPanics, hf, hb]
      rfl
  · intro hf
    simp only [defaultClauseAlwaysPanics, hf]
  · intro c hf hb
    simp only [defaultClauseAlwaysPanics, hf]
    match hbody : c.body with
    | [] => rfl
    | [GoStmt.exprStmt (GoExpr.call (GoExpr.ident n))] =>
      rw [hbody] at hb
      have hn : n ≠ "panic" := by
        intro he; rw [he] at hb; exact hb rfl
      simp only [Except.ok.injEq, decide_eq_true_eq]
      simp [hn]
    | [GoStmt.exprStmt (GoExpr.call (GoExpr.selector a b))] => rfl
    | [GoStmt.exprStmt (GoExpr.call (GoExpr.star a))] => rfl
    | [GoStmt.exprStmt (GoExpr.call (GoExpr.typeAssert a))] => rfl
    | [GoStmt.exprStmt (GoExpr.call (GoExpr.call a))] => rfl
    | [GoStmt.exprStmt (GoExpr.call GoExpr.otherExpr)] => rfl
    | [GoStmt.exprStmt (GoExpr.ident a)] => rfl
    | [GoStmt.exprStmt (GoExpr.selector a b)] => rfl
    | [GoStmt.exprStmt (GoExpr.star a)] => rfl
    | [GoStmt.exprStmt (GoExpr.typeAssert a)] => rfl
    | [GoStmt.exprStmt GoExpr.otherExpr] => rfl
    | [GoStmt.assignStmt rhs] => rfl
    | [GoStmt.otherStmt] => rfl
    | s1 :: s2 :: rest => rfl

/-- C4 amended witness: on the concrete panicking-default switch the
characterization yields `.ok true`; on the returning-default switch the
third part yields `.ok false`. -/
theorem defaultClauseAlwaysPanics_characterization_witness :
    defaultClauseAlwaysPanics swPanicDefault = .ok true ∧
    defaultClauseAlwaysPanics swReturnDefault = .ok false :=
  ⟨(defaultClauseAlwaysPanics_characterization swPanicDefault).1.mpr
      ⟨defaultPanicClause, by decide, rfl⟩,
    (defaultClauseAlwaysPanics_characterization swReturnDefault).2.2
      defaultReturnClause (by decide) (by decide)⟩

/-- C7 counterexample: a switch whose shape the checker cannot interpret
does not abort only that single switch: the panic escapes `run` and
aborts the whole run, so the second switch — which, checked alone, would
produce an exhaustiveness diagnostic — is never analyzed and its
diagnostic is lost. -/
theorem run_aborts_on_malformed_switch_counterexample :
    run shapeEnv shapeScope [shapeDeclFile] [swBadShape, swMissingSquare] =
      .panicked "interface conversion: not an ExprStmt" ∧
    run shapeEnv shapeScope [shapeDeclFile] [swMissingSquare] =
      .err (.inexhaustive ⟨5, shapeDef, [squareObj]⟩) := by
  constructor
  · decide
  · decide

/-- C7 amended: a switch whose shape the checker cannot interpret makes
`checkSwitch` panic; the panic aborts the entire remaining run — the
switches after it are not analyzed, whatever they are — and the panic
outcome is distinct from every returned error, in particular from
exhaustiveness diagnostics. -/
theorem runSwitches_panicked_aborts (pkg : Scope) (defs : List sumTypeDef)
    (s : TypeSwitchStmt) (rest : List TypeSwitchStmt) (m : String)
    (h : checkSwitch pkg defs s = .error m) :
    runSwitches pkg defs (s :: rest) = .panicked m ∧
    ∀ e : RunError, (RunResult.panicked m) ≠ .err e := by
  constructor
  · simp only [runSwitches, h]
  · intro e he
    cases he

/-- C7 amended witness: the malformed switch panics the run regardless
of the remaining switch. -/
theorem runSwitches_panicked_aborts_witness :
    runSwitches shapeScope [shapeDef] [swBadShape, swMissingSquare] =
      .panicked "interface conversion: not an ExprStmt" ∧
    ∀ e : RunError, (RunResult.panicked "interface conversion: not an ExprStmt") ≠ .err e :=
  runSwitches_panicked_aborts shapeScope [shapeDef] swBadShape [swMissingSquare]
    "interface conversion: not an ExprStmt" (by decide)

/-- C8 counterexample: with a single declaration whose type name does
not resolve, `run` returns the resolution failure as its error — the
claim's "reported once, non-fatal, analysis continues" fails: the run
ends with that error, and the switch it never checked would (second
conjunct) have produced an exhaustiveness diagnostic, which is thus
dropped. -/
theorem run_resolution_failure_counterexample :
    run [] shapeScope [shapeDeclFile] [swMissingSquare] = .err (.notFound shapeDecl) ∧
    run shapeEnv shapeScope [shapeDeclFile] [swMissingSquare] =
      .err (.inexhaustive ⟨5, shapeDef, [squareObj]⟩) := by
  constructor
  · decide
  · decide

/-- C8 amended: resolution failures are collected per declaration and
resolution continues across the remaining declarations; but `run`
reports at most one of them: when no definition resolves and at least
one failure exists, `run` returns the first failure as its error and
checks no switches; when no declarations and no failures exist the run
is not an error; and when at least one definition resolves, the
collected failures are silently discarded — `run` proceeds to the
switch loop, whose result does not depend on them. -/
theorem run_resolution_failure_behavior (env : List (String × sumTypeDef)) (pkg : Scope)
    (files : List FileInput) (switches : List TypeSwitchStmt) :
    (∀ d ds, resolveDecl env d = none →
      findSumTypeDefs env (d :: ds) =
        ((findSumTypeDefs env ds).1, .notFound d :: (findSumTypeDefs env ds).2)) ∧
    (∀ decls, findSumTypeDecls files = .ok decls →
      ((findSumTypeDefs env decls).1 = [] → (findSumTypeDefs env decls).2 = [] →
        run env pkg files switches = .ok) ∧
      ((findSumTypeDefs env decls).1 = [] →
        ∀ e es, (findSumTypeDefs env decls).2 = e :: es →
          run env pkg files switches = .err e) ∧
      ((findSumTypeDefs env decls).1 ≠ [] →
        run env pkg files switches = runSwitches pkg (findSumTypeDefs env decls).1 switches)) := by
  constructor
  · intro d ds h
    simp only [findSumTypeDefs, h]
  · intro decls hdecls
    refine ⟨?_, ?_, ?_⟩
    · intro h1 h2
      have he : (findSumTypeDefs env decls).1.isEmpty = true := by
        rw [List.isEmpty_eq_true]; exact h1
      simp only [run, hdecls, he, if_true, h2]
    · intro h1 e es h2
      have he : (findSumTypeDefs env decls).1.isEmpty = true := by
        rw [List.isEmpty_eq_true]; exact h1
      simp only [run, hdecls, he, if_true, h2]
    · intro h1
      have he : (findSumTypeDefs env decls).1.isEmpty = false := by
        rw [List.isEmpty_eq_false]; exact h1
      simp only [run, hdecls, he, Bool.false_eq_true, if_false]

/-- C8 amended witness: with an empty environment the lone declaration
fails to resolve, the failure is recorded while resolution continues,
and the run returns that first failure. -/
theorem run_resolution_failure_behavior_witness :
    findSumTypeDefs [] [shapeDecl] = (([] : List sumTypeDef), [RunError.notFound shapeDecl]) ∧
    run [] shapeScope [shapeDeclFile] [swMissingSquare] = .err (.notFound shapeDecl) := by
  constructor
  · exact (run_resolution_failure_behavior [] shapeScope [shapeDeclFile] [swMissingSquare]).1
      shapeDecl [] (by decide)
  · exact ((run_resolution_failure_behavior [] shapeScope [shapeDeclFile]
      [swMissingSquare]).2 [shapeDecl] (by decide)).2.1 (by decide) (.notFound shapeDecl) []
      (by decide)

theorem defaultClauseAlwaysPanics_ok_of_default (swtch : TypeSwitchStmt) (c : CaseClause)
    (h : findDefaultClause swtch.body = some c) :
    ∃ b, defaultClauseAlwaysPanics swtch = .ok b := by
  simp only [defaultClauseAlwaysPanics, h]
  split
  · split
    · split
      · split
        · exact ⟨_, rfl⟩
        · exact ⟨_, rfl⟩
      · exact ⟨_, rfl⟩
    · exact ⟨_, rfl⟩
  · exact ⟨_, rfl⟩

/-- C3: for a switch on a declared sum type that has a default clause:
when the default is not recognized as always panicking, `checkSwitch`
returns nil regardless of case coverage; when the default is recognized
as always panicking, its presence does not suppress the check — the
missing variants are still computed from the cases and reported when
nonempty. -/
theorem checkSwitch_default_policy (pkg : Scope) (defs : List sumTypeDef)
    (swtch : TypeSwitchStmt) (x : GoExpr) (sel : String) (obj : Object) (d : sumTypeDef)
    (h1 : findTypeAssertExpr swtch = .ok (.selector x sel))
    (h2 : lookupScope pkg sel = some obj)
    (h3 : findDef defs obj.ty = some d)
    (hd : (switchVariants swtch).2 = true) :
    (defaultClauseAlwaysPanics swtch = .ok false → checkSwitch pkg defs swtch = .ok none) ∧
    (defaultClauseAlwaysPanics swtch = .ok true →
      ∀ tys, resolveCaseTypes pkg (switchVariants swtch).1 = .ok tys →
        d.missing tys ≠ [] →
        checkSwitch pkg defs swtch = .ok (some ⟨swtch.pos, d, d.missing tys⟩)) := by
  constructor
  · intro hp
    have hm := missingVariants_suppressed pkg defs swtch x sel obj d h1 h2 h3 hd hp
    have hc := checkSwitch_of_missing pkg defs swtch d [] hm
    simpa using hc
  · intro hp tys h4 hne
    have hm := missingVariants_checked pkg defs swtch x sel obj d tys h1 h2 h3 (Or.inr hp) h4
    have hc := checkSwitch_of_missing pkg defs swtch d (d.missing tys) hm
    have hlen : (d.missing tys).length > 0 := List.length_pos.mpr hne
    rw [hc, if_pos hlen]

/-- C3 witness: Scenario D (returning default suppresses) and Scenario C
(panicking default does not suppress; `Square` is reported). -/
theorem checkSwitch_default_policy_witness :
    checkSwitch shapeScope [shapeDef] swReturnDefault = .ok none ∧
    checkSwitch shapeScope [shapeDef] swPanicDefault = .ok (some ⟨7, shapeDef, [squareObj]⟩) :=
  ⟨(checkSwitch_default_policy shapeScope [shapeDef] swReturnDefault (.ident "x") "s"
      ⟨"s", shapeTy⟩ shapeDef (by decide) (by decide) (by decide) (by decide)).1 (by decide),
    (checkSwitch_default_policy shapeScope [shapeDef] swPanicDefault (.ident "x") "s"
      ⟨"s", shapeTy⟩ shapeDef (by decide) (by decide) (by decide) (by decide)).2 (by decide)
      [circleTy] (by decide) (by decide)⟩

/-- C2: a switch whose resolved case types exactly equal the full
variant set of the resolved definition — order and duplicates
irrelevant, with or without a default clause of either kind — produces
no diagnostic: `checkSwitch` returns nil. -/
theorem checkSwitch_full_coverage (pkg : Scope) (defs : List sumTypeDef)
    (swtch : TypeSwitchStmt) (x : GoExpr) (sel : String) (obj : Object) (d : sumTypeDef)
    (tys : List GoType)
    (h1 : findTypeAssertExpr swtch = .ok (.selector x sel))
    (h2 : lookupScope pkg sel = some obj)
    (h3 : findDef defs obj.ty = some d)
    (h4 : resolveCaseTypes pkg (switchVariants swtch).1 = .ok tys)
    (hcov : ∀ v ∈ d.Variants, ∃ t ∈ tys, Identical v.ty t = true)
    (_hsub : ∀ t ∈ tys, ∃ v ∈ d.Variants, Identical v.ty t = true) :
    checkSwitch pkg defs swtch = .ok none := by
  have hmiss : d.missing tys = [] := by
    rw [sumTypeDef.missing, List.filter_eq_nil_iff]
    intro v hv
    rcases hcov v hv with ⟨t, ht, hid⟩
    simp only [Bool.not_eq_true', Bool.not_eq_false]
    rw [List.any_eq_true]
    exact ⟨t, ht, hid⟩
  cases hd : (switchVariants swtch).2 with
  | false =>
    have hm := missingVariants_checked pkg defs swtch x sel obj d tys h1 h2 h3 (Or.inl hd) h4
    have hc := checkSwitch_of_missing pkg defs swtch d (d.missing tys) hm
    rw [hmiss] at hc
    simpa using hc
  | true =>
    rcases hasDefault_findDefaultClause swtch.body hd with ⟨c, hcdef⟩
    rcases defaultClauseAlwaysPanics_ok_of_default swtch c hcdef with ⟨b, hp⟩
    cases b with
    | false =>
      have hm := missingVariants_suppressed pkg defs swtch x sel obj d h1 h2 h3 hd hp
      have hc := checkSwitch_of_missing pkg defs swtch d [] hm
      simpa using hc
    | true =>
      have hm := missingVariants_checked pkg defs swtch x sel obj d tys h1 h2 h3 (Or.inr hp) h4
      have hc := checkSwitch_of_missing pkg defs swtch d (d.missing tys) hm
      rw [hmiss] at hc
      simpa using hc

/-- C2 witness: Scenario B with the cases out of order and `*Circle`
duplicated: no diagnostic. -/
theorem checkSwitch_full_coverage_witness :
    checkSwitch shapeScope [shapeDef] swFullCoverage = .ok none :=
  checkSwitch_full_coverage shapeScope [shapeDef] swFullCoverage (.ident "x") "s"
    ⟨"s", shapeTy⟩ shapeDef [squareTy, circleTy, circleTy] (by decide) (by decide)
    (by decide) (by decide) (by decide) (by decide)

/-- C1: a switch that resolves to a sum type definition, is missing at
least one variant, and has no default clause or only a panicking
default, makes `checkSwitch` return an `inexhaustiveError` whose
`Missing` field is exactly `variants − caseTypes` and whose `Names()`
list is that set difference's names sorted lexicographically, with no
duplicates (the variant names, drawn from one scope, are distinct). -/
theorem checkSwitch_missing_names (pkg : Scope) (defs : List sumTypeDef)
    (swtch : TypeSwitchStmt) (x : GoExpr) (sel : String) (obj : Object) (d : sumTypeDef)
    (tys : List GoType)
    (h1 : findTypeAssertExpr swtch = .ok (.selector x sel))
    (h2 : lookupScope pkg sel = some obj)
    (h3 : findDef defs obj.ty = some d)
    (hdef : (switchVariants swtch).2 = false ∨ defaultClauseAlwaysPanics swtch = .ok true)
    (h4 : resolveCaseTypes pkg (switchVariants swtch).1 = .ok tys)
    (hne : d.missing tys ≠ [])
    (hnd : (d.Variants.map Object.name).Nodup) :
    ∃ e : inexhaustiveError,
      checkSwitch pkg defs swtch = .ok (some e) ∧
      e.Missing = d.missing tys ∧
      e.Names = sortStrings ((d.missing tys).map Object.name) ∧
      List.Perm e.Names ((d.missing tys).map Object.name) ∧
      e.Names.Pairwise (fun a b => leStr a b = true) ∧
      e.Names.Nodup ∧
      (∀ s, s ∈ e.Names ↔ ∃ v, v ∈ d.Variants ∧ v.name = s ∧
        ∀ t ∈ tys, Identical v.ty t = false) := by
  have hm := missingVariants_checked pkg defs swtch x sel obj d tys h1 h2 h3 hdef h4
  have hc := checkSwitch_of_missing pkg defs swtch d (d.missing tys) hm
  have hlen : (d.missing tys).length > 0 := List.length_pos.mpr hne
  refine ⟨⟨swtch.pos, d, d.missing tys⟩, ?_, rfl, rfl, ?_, ?_, ?_, ?_⟩
  · rw [hc, if_pos hlen]
  · exact sortStrings_perm _
  · exact sortStrings_pairwise _
  · have hsub : ((d.missing tys).map Object.name).Sublist (d.Variants.map Object.name) :=
      List.Sublist.map Object.name (List.filter_sublist d.Variants)
    have hnd2 : ((d.missing tys).map Object.name).Nodup := hsub.nodup hnd
    exact ((sortStrings_perm _).symm).nodup hnd2
  · intro s
    simp only [inexhaustiveError.Names]
    rw [List.Perm.mem_iff (sortStrings_perm _)]
    simp only [sumTypeDef.missing, List.mem_map, List.mem_filter]
    constructor
    · rintro ⟨v, ⟨hv, hp⟩, hs⟩
      refine ⟨v, hv, hs, ?_⟩
      intro t ht
      rw [Bool.not_eq_true'] at hp
      have hall := List.any_eq_false.mp hp
      cases hgt : Identical v.ty t with
      | false => rfl
      | true => exact absurd hgt (hall t ht)
    · rintro ⟨v, hv, hs, hall⟩
      refine ⟨v, ⟨hv, ?_⟩, hs⟩
      rw [Bool.not_eq_true']
      rw [List.any_eq_false]
      intro t ht
      rw [hall t ht]
      simp

/-- C1 witness: Scenario A — the switch covering only `*Circle` yields
the diagnostic whose sorted missing-name list is `["Square"]`. -/
theorem checkSwitch_missing_names_witness :
    ∃ e : inexhaustiveError,
      checkSwitch shapeScope [shapeDef] swMissingSquare = .ok (some e) ∧
      e.Missing = shapeDef.missing [circleTy] ∧
      e.Names = sortStrings ((shapeDef.missing [circleTy]).map Object.name) ∧
      List.Perm e.Names ((shapeDef.missing [circleTy]).map Object.name) ∧
      e.Names.Pairwise (fun a b => leStr a b = true) ∧
      e.Names.Nodup ∧
      (∀ s, s ∈ e.Names ↔ ∃ v, v ∈ shapeDef.Variants ∧ v.name = s ∧
        ∀ t ∈ [circleTy], Identical v.ty t = false) :=
  checkSwitch_missing_names shapeScope [shapeDef] swMissingSquare (.ident "x") "s"
    ⟨"s", shapeTy⟩ shapeDef [circleTy] (by decide) (by decide) (by decide)
    (Or.inl (by decide)) (by decide) (by decide) (by decide)

theorem spaceVariant_toList : "//go-sumtype:decl ".toList = declLit ++ [' '] := by decide

theorem tabVariant_toList : "//go-sumtype:decl\t".toList = declLit ++ ['\t'] := by decide

theorem parseSumTypeDecl_eval (c : Char) (r : List Char) (hc : isGoSpace c = true) :
    parseSumTypeDecl (declLit ++ c :: r) =
      (if ((r.dropWhile isGoSpace).dropWhile (fun x => !isGoSpace x)).all isGoSpace = true
        then (r.dropWhile isGoSpace).takeWhile (fun x => !isGoSpace x) else []) := by
  have hdrop : dropLit declLit (declLit ++ c :: r) = some (c :: r) :=
    (dropLit_eq_some declLit _ _).mpr rfl
  simp only [parseSumTypeDecl, hdrop, List.takeWhile_cons_of_pos hc,
    List.dropWhile_cons_of_pos hc]
  cases hm : (r.dropWhile isGoSpace).takeWhile (fun x => !isGoSpace x) with
  | nil =>
    by_cases hall : ((r.dropWhile isGoSpace).dropWhile (fun x => !isGoSpace x)).all isGoSpace = true
    · rw [if_pos hall]
    · rw [if_neg hall]
  | cons a as => rfl

theorem isSumTypeDecl_of_shape (c : Char) (r : List Char) (hc : c = ' ' ∨ c = '\t') :
    isSumTypeDecl (declLit ++ c :: r) = true := by
  unfold isSumTypeDecl
  rw [spaceVariant_toList, tabVariant_toList]
  rcases hc with h | h
  · subst h
    have harg : declLit ++ ' ' :: r = (declLit ++ [' ']) ++ r := by
      rw [List.append_assoc]; rfl
    have h1 : dropLit (declLit ++ [' ']) (declLit ++ ' ' :: r) = some r := by
      rw [harg]
      exact (dropLit_eq_some _ _ _).mpr rfl
    rw [h1]
    simp
  · subst h
    have harg : declLit ++ '\t' :: r = (declLit ++ ['\t']) ++ r := by
      rw [List.append_assoc]; rfl
    have h1 : dropLit (declLit ++ ['\t']) (declLit ++ '\t' :: r) = some r := by
      rw [harg]
      exact (dropLit_eq_some _ _ _).mpr rfl
    rw [h1]
    simp

theorem isSumTypeDecl_shape (line : List Char) (h : isSumTypeDecl line = true) :
    ∃ c r, (c = ' ' ∨ c = '\t') ∧ line = declLit ++ c :: r := by
  unfold isSumTypeDecl at h
  rw [Bool.or_eq_true] at h
  rcases h with h | h
  · rcases Option.isSome_iff_exists.mp h with ⟨r, hr⟩
    rw [dropLit_eq_some] at hr
    refine ⟨' ', r, Or.inl rfl, ?_⟩
    rw [hr, spaceVariant_toList, List.append_assoc]
    rfl
  · rcases Option.isSome_iff_exists.mp h with ⟨r, hr⟩
    rw [dropLit_eq_some] at hr
    refine ⟨'\t', r, Or.inr rfl, ?_⟩
    rw [hr, tabVariant_toList, List.append_assoc]
    rfl

/-- C5 counterexample: the scanner accepts `@` — not a bare identifier —
as a declared type name, so "scanning yields a declaration iff the line
carries a single bare identifier after the keyword" fails at this line:
a declaration is produced although no identifier is present. -/
theorem scanDeclLine_accepts_non_identifier :
    scanDeclLine ("//go-sumtype:decl @".toList) = some ("@".toList) ∧
    isBareIdent ("@".toList) = false := by
  constructor
  · decide
  · decide

/-- C5 amended: scanning yields a declaration with name `nm` iff the
line is the literal `//go-sumtype:decl` followed by one or more
whitespace characters the first of which is a space or a tab, then a
single nonempty whitespace-free token `nm` (not necessarily an
identifier), then only trailing whitespace. In particular recognition is
insensitive to space versus tab after the keyword, and a line with extra
non-whitespace content after the token is rejected. -/
theorem scanDeclLine_characterization (line nm : List Char) :
    scanDeclLine line = some nm ↔
      nm ≠ [] ∧ (∀ x ∈ nm, isGoSpace x = false) ∧
      ∃ c w t, (c = ' ' ∨ c = '\t') ∧ (∀ x ∈ w, isGoSpace x = true) ∧
        (∀ x ∈ t, isGoSpace x = true) ∧
        line = declLit ++ c :: (w ++ (nm ++ t)) := by
  constructor
  · intro h
    by_cases hg : isSumTypeDecl line = true
    · rw [scanDeclLine, if_pos hg] at h
      rcases isSumTypeDecl_shape line hg with ⟨c, r, hc, hline⟩
      have hcs : isGoSpace c = true := by
        rcases hc with h2 | h2 <;> rw [h2] <;> decide
      have hpair : parseSumTypeDecl line = nm ∧ nm ≠ [] := by
        cases hp : parseSumTypeDecl line with
        | nil => rw [hp] at h; cases h
        | cons a as =>
          rw [hp] at h
          simp only [Option.some.injEq] at h
          constructor
          · exact h
          · rw [← h]; simp
      rcases hpair with ⟨hparse, hnm_ne⟩
      rw [hline, parseSumTypeDecl_eval c r hcs] at hparse
      by_cases hall : ((r.dropWhile isGoSpace).dropWhile (fun x => !isGoSpace x)).all isGoSpace = true
      · rw [if_pos hall] at hparse
        refine ⟨hnm_ne, ?_, c, r.takeWhile isGoSpace,
          (r.dropWhile isGoSpace).dropWhile (fun x => !isGoSpace x), hc, ?_, ?_, ?_⟩
        · intro x hx
          rw [← hparse] at hx
          have hb := List.mem_takeWhile_imp hx
          rw [Bool.not_eq_true'] at hb
          exact hb
        · intro x hx
          exact List.mem_takeWhile_imp hx
        · intro x hx
          exact List.all_eq_true.mp hall x hx
        · rw [hline]
          have h2 : (r.dropWhile isGoSpace).takeWhile (fun x => !isGoSpace x) ++
              (r.dropWhile isGoSpace).dropWhile (fun x => !isGoSpace x) = r.dropWhile isGoSpace :=
            List.takeWhile_append_dropWhile (fun x => !isGoSpace x) (r.dropWhile isGoSpace)
          rw [hparse] at h2
          have h1 : r.takeWhile isGoSpace ++ r.dropWhile isGoSpace = r :=
            List.takeWhile_append_dropWhile isGoSpace r
          rw [← h2] at h1
          rw [h1]
      · rw [if_neg hall] at hparse
        exact absurd hparse.symm hnm_ne
    · rw [scanDeclLine, if_neg hg] at h
      cases h
  · rintro ⟨hne, hnm, c, w, t, hc, hw, ht, hline⟩
    have hcs : isGoSpace c = true := by
      rcases hc with h2 | h2 <;> rw [h2] <;> decide
    have hgate : isSumTypeDecl line = true := by
      rw [hline]; exact isSumTypeDecl_of_shape c (w ++ (nm ++ t)) hc
    cases hn : nm with
    | nil => exact absurd hn hne
    | cons n0 nrest =>
      have hn0 : isGoSpace n0 = false := by
        apply hnm; rw [hn]; exact List.mem_cons_self n0 nrest
      have hdw : (w ++ (nm ++ t)).dropWhile isGoSpace = nm ++ t := by
        rw [dropWhile_append_of_all isGoSpace w (nm ++ t) hw, hn, List.cons_append,
          List.dropWhile_cons_of_neg, ← List.cons_append, ← hn]
        rw [hn0]
        simp
      have hnm_bool : ∀ x ∈ nm, (fun x => !isGoSpace x) x = true := by
        intro x hx
        have := hnm x hx
        simp only [this]
        rfl
      have ht_bool : ∀ x ∈ t, (fun x => !isGoSpace x) x = false := by
        intro x hx
        have := ht x hx
        simp only [this]
        rfl
      have htw : (nm ++ t).takeWhile (fun x => !isGoSpace x) = nm := by
        rw [takeWhile_append_of_all (fun x => !isGoSpace x) nm t hnm_bool,
          takeWhile_eq_nil_of_all_false (fun x => !isGoSpace x) t ht_bool,
          List.append_nil]
      have hdw2 : (nm ++ t).dropWhile (fun x => !isGoSpace x) = t := by
        rw [dropWhile_append_of_all (fun x => !isGoSpace x) nm t hnm_bool,
          dropWhile_eq_self_of_all_false (fun x => !isGoSpace x) t ht_bool]
      have hparse : parseSumTypeDecl line = nm := by
        rw [hline, parseSumTypeDecl_eval c (w ++ (nm ++ t)) hcs, hdw, hdw2, htw]
        rw [if_pos (List.all_eq_true.mpr ht)]
      rw [scanDeclLine, if_pos hgate, hparse, hn]

/-- C5 amended witness: a line with a tab after the keyword, extra
whitespace, the token `Foo`, and trailing whitespace is recognized with
name `Foo`. -/
theorem scanDeclLine_characterization_witness :
    scanDeclLine ("//go-sumtype:decl\t Foo ".toList) = some ("Foo".toList) :=
  (scanDeclLine_characterization ("//go-sumtype:decl\t Foo ".toList) ("Foo".toList)).mpr
    ⟨by decide, by decide,
      '\t', [' '], [' '], Or.inr rfl, by decide, by decide, by decide⟩
